import Mathlib

/-!
Verification of the kprom plugin (src/plugin/kprom/kprom.go): a
Prometheus hook adapter for the franz-go kafka client.  The adapter owns a
set of labeled counter families and implements six event-handler hooks;
each handler derives a node (and possibly topic) label and performs a
single counter update.  We embed the handler bodies, the label codec
(the strconv.Itoa routine of Go) and the construction/registration path, and prove the
testable properties of the spec about them.
-/

namespace Kprom

/-! ## Label codec: Go strconv.Itoa -/

/-- Numeric value of a list of decimal digit characters (most significant
first), used to state what it means for a string to be the decimal form of
a number. -/
def dval (ds : List Char) : Nat :=
  ds.foldl (fun a c => 10 * a + (c.toNat - 48)) 0

/-- The ASCII character of a decimal digit. -/
def digitChar (d : Nat) : Char :=
  Char.ofNat (48 + d)

/-- Digit extraction by repeated division by 10, as the Go strconv
formatting does, most significant digit first.  The first argument is
fuel bounding the recursion depth. -/
def itoaCore : Nat → Nat → List Char
  | 0, _ => []
  | fuel + 1, n => if n = 0 then [] else itoaCore fuel (n / 10) ++ [digitChar (n % 10)]

/-- Decimal string of a natural number (Go strconv formatting of a
non-negative value). -/
def itoaNat (n : Nat) : String :=
  if n = 0 then "0" else String.mk (itoaCore n n)

/-- The strconv.Itoa routine of Go on a (signed) integer: a minus sign followed by the
digits of the magnitude for negative input, the digits alone otherwise. -/
def itoa (i : Int) : String :=
  if i < 0 then "-" ++ itoaNat i.natAbs else itoaNat i.toNat

/-! ## Event metadata -/

/-- Modelled from the spec: event node metadata supplied by the broker
client on every event — a signed 32-bit node identifier together with
further connection details (host, port, rack) that the label codec does
not consult. -/
structure BrokerMetadata where
  nodeID : Int
  host : String
  port : Int
  rack : Option String
  deriving DecidableEq

/-- The node label each handler derives: strconv.Itoa(int(meta.NodeID))
(kprom.go lines 204, 213, 218, 227, 236, 241). -/
def nodeLabel (meta : BrokerMetadata) : String :=
  itoa meta.nodeID

/-- Modelled from the spec: batch metrics for a written produce batch,
including the uncompressed byte count, alongside further per-batch
numbers that the aggregator does not consult. -/
structure ProduceBatchMetrics where
  numRecords : Int
  uncompressedBytes : Int
  compressedBytes : Int
  compressionType : Int
  deriving DecidableEq

/-- Modelled from the spec: batch metrics for a read fetch batch,
including the uncompressed byte count, alongside further per-batch
numbers that the aggregator does not consult. -/
structure FetchBatchMetrics where
  numRecords : Int
  uncompressedBytes : Int
  compressedBytes : Int
  compressionType : Int
  deriving DecidableEq

/-! ## Counter state

The Metrics struct holds nine counter vecs (kprom.go lines 52-67).  Each
counter vec is a family: a mapping from a label tuple to an accumulator,
absent tuples reading as zero.  Counter values added here are exact
integers (the handlers only ever add integral amounts). -/

/-- The value state of the nine counter families of the Metrics struct:
seven keyed by node label, two keyed by (node label, topic). -/
structure MetricsState where
  connects : String → Int
  connectErrs : String → Int
  disconnects : String → Int
  writeErrs : String → Int
  writeBytes : String → Int
  readErrs : String → Int
  readBytes : String → Int
  produceBytes : String × String → Int
  fetchBytes : String × String → Int

/-- Pointwise counter update: WithLabelValues(k).Add(v) bumps the
accumulator at label tuple k by v and touches no other tuple. -/
def add {α : Type} [DecidableEq α] (f : α → Int) (k : α) (v : Int) : α → Int :=
  fun x => if x = k then f x + v else f x

/-- All families start with every accumulator at zero. -/
def initialState : MetricsState :=
  ⟨fun _ => 0, fun _ => 0, fun _ => 0, fun _ => 0, fun _ => 0,
   fun _ => 0, fun _ => 0, fun _ => 0, fun _ => 0⟩

/-! ## The six hook handlers (kprom.go lines 203-243) -/

/-- OnBrokerConnect (kprom.go lines 203-210): on error increment
connect_errors_total at the node label and return; otherwise increment
connects_total at the node label. -/
def OnBrokerConnect {C E : Type} (m : MetricsState) (meta : BrokerMetadata)
    (_dialDur : Int) (_conn : C) (err : Option E) : MetricsState :=
  match err with
  | some _ => { m with connectErrs := add m.connectErrs (nodeLabel meta) 1 }
  | none => { m with connects := add m.connects (nodeLabel meta) 1 }

/-- OnBrokerDisconnect (kprom.go lines 212-215): increment
disconnects_total at the node label. -/
def OnBrokerDisconnect {C : Type} (m : MetricsState) (meta : BrokerMetadata)
    (_conn : C) : MetricsState :=
  { m with disconnects := add m.disconnects (nodeLabel meta) 1 }

/-- OnBrokerWrite (kprom.go lines 217-224): on error increment
write_errors_total at the node label and return; otherwise add the
written byte count to write_bytes_total at the node label. -/
def OnBrokerWrite {E : Type} (m : MetricsState) (meta : BrokerMetadata)
    (_key : Int) (bytesWritten : Int) (_writeWait _timeToWrite : Int)
    (err : Option E) : MetricsState :=
  match err with
  | some _ => { m with writeErrs := add m.writeErrs (nodeLabel meta) 1 }
  | none => { m with writeBytes := add m.writeBytes (nodeLabel meta) bytesWritten }

/-- OnBrokerRead (kprom.go lines 226-233): on error increment
read_errors_total at the node label and return; otherwise add the read
byte count to read_bytes_total at the node label. -/
def OnBrokerRead {E : Type} (m : MetricsState) (meta : BrokerMetadata)
    (_key : Int) (bytesRead : Int) (_readWait _timeToRead : Int)
    (err : Option E) : MetricsState :=
  match err with
  | some _ => { m with readErrs := add m.readErrs (nodeLabel meta) 1 }
  | none => { m with readBytes := add m.readBytes (nodeLabel meta) bytesRead }

/-- OnProduceBatchWritten (kprom.go lines 235-238): add the
uncompressed byte count to produce_bytes_total at (node label, topic). -/
def OnProduceBatchWritten (m : MetricsState) (meta : BrokerMetadata)
    (topic : String) (_partition : Int) (pbm : ProduceBatchMetrics) : MetricsState :=
  { m with produceBytes := add m.produceBytes (nodeLabel meta, topic) pbm.uncompressedBytes }

/-- OnFetchBatchRead (kprom.go lines 240-243): add the
uncompressed byte count to fetch_bytes_total at (node label, topic). -/
def OnFetchBatchRead (m : MetricsState) (meta : BrokerMetadata)
    (topic : String) (_partition : Int) (fbm : FetchBatchMetrics) : MetricsState :=
  { m with fetchBytes := add m.fetchBytes (nodeLabel meta, topic) fbm.uncompressedBytes }

/-! ## Replay of successful write events -/

/-- One successful (nil-error) write event: the arguments of an
OnBrokerWrite invocation apart from the error. -/
structure WriteEvent where
  meta : BrokerMetadata
  key : Int
  bytes : Int
  writeWait : Int
  timeToWrite : Int
  deriving DecidableEq

/-- Replay a sequence of successful write events through OnBrokerWrite
with a nil error. -/
def writeReplay (m : MetricsState) (evs : List WriteEvent) : MetricsState :=
  evs.foldl
    (fun s e => OnBrokerWrite s e.meta e.key e.bytes e.writeWait e.timeToWrite
      (none : Option Unit)) m

/-! ## Events and the dispatch step -/

/-- One observed event, tagged by which of the six hooks the client
invokes for it, carrying the arguments of that hook.  C is the transport
handle type, E the error type. -/
inductive Event (C E : Type) where
  | connect (meta : BrokerMetadata) (dialDur : Int) (conn : C) (err : Option E)
  | disconnect (meta : BrokerMetadata) (conn : C)
  | write (meta : BrokerMetadata) (key : Int) (bytesWritten : Int)
      (writeWait timeToWrite : Int) (err : Option E)
  | read (meta : BrokerMetadata) (key : Int) (bytesRead : Int)
      (readWait timeToRead : Int) (err : Option E)
  | produceBatchWritten (meta : BrokerMetadata) (topic : String)
      (partition : Int) (pbm : ProduceBatchMetrics)
  | fetchBatchRead (meta : BrokerMetadata) (topic : String)
      (partition : Int) (fbm : FetchBatchMetrics)

/-- Dispatch one event to its handler: the client invokes exactly one
handler per observed event. -/
def step {C E : Type} (m : MetricsState) : Event C E → MetricsState
  | .connect meta d c err => OnBrokerConnect m meta d c err
  | .disconnect meta c => OnBrokerDisconnect m meta c
  | .write meta k b w t err => OnBrokerWrite m meta k b w t err
  | .read meta k b w t err => OnBrokerRead m meta k b w t err
  | .produceBatchWritten meta topic p pbm => OnProduceBatchWritten m meta topic p pbm
  | .fetchBatchRead meta topic p fbm => OnFetchBatchRead m meta topic p fbm

/-- The byte-count arguments of the event are non-negative (trivially true for
events that carry no byte count). -/
def eventNonneg {C E : Type} : Event C E → Prop
  | .write _ _ b _ _ _ => 0 ≤ b
  | .read _ _ b _ _ _ => 0 ≤ b
  | .produceBatchWritten _ _ _ pbm => 0 ≤ pbm.uncompressedBytes
  | .fetchBatchRead _ _ _ fbm => 0 ≤ fbm.uncompressedBytes
  | _ => True

/-- Pointwise order on counter states: every accumulator of every family
is no smaller in the second state. -/
def stateLE (m m' : MetricsState) : Prop :=
  (∀ k, m.connects k ≤ m'.connects k) ∧
  (∀ k, m.connectErrs k ≤ m'.connectErrs k) ∧
  (∀ k, m.disconnects k ≤ m'.disconnects k) ∧
  (∀ k, m.writeErrs k ≤ m'.writeErrs k) ∧
  (∀ k, m.writeBytes k ≤ m'.writeBytes k) ∧
  (∀ k, m.readErrs k ≤ m'.readErrs k) ∧
  (∀ k, m.readBytes k ≤ m'.readBytes k) ∧
  (∀ k, m.produceBytes k ≤ m'.produceBytes k) ∧
  (∀ k, m.fetchBytes k ≤ m'.fetchBytes k)

/-- The second state arises from the first by a single counter update:
one family is bumped at one label tuple, all else untouched. -/
def singleCounterUpdate (m m' : MetricsState) : Prop :=
  (∃ k v, m' = { m with connects := add m.connects k v }) ∨
  (∃ k v, m' = { m with connectErrs := add m.connectErrs k v }) ∨
  (∃ k v, m' = { m with disconnects := add m.disconnects k v }) ∨
  (∃ k v, m' = { m with writeErrs := add m.writeErrs k v }) ∨
  (∃ k v, m' = { m with writeBytes := add m.writeBytes k v }) ∨
  (∃ k v, m' = { m with readErrs := add m.readErrs k v }) ∨
  (∃ k v, m' = { m with readBytes := add m.readBytes k v }) ∨
  (∃ k v, m' = { m with produceBytes := add m.produceBytes k v }) ∨
  (∃ k v, m' = { m with fetchBytes := add m.fetchBytes k v })

/-! ## Canonical decimal strings -/

/-- A list of characters is a canonical digit run: non-empty, all decimal
digits, and no leading zero except for the single digit zero itself. -/
def goodDigits (ds : List Char) : Prop :=
  ds ≠ [] ∧ (∀ c ∈ ds, '0' ≤ c ∧ c ≤ '9') ∧ (ds.head? = some '0' → ds = ['0'])

/-- s is the canonical base-10 decimal rendering of the integer n: for
negative n a minus sign followed by the canonical digit run of the
magnitude, otherwise the canonical digit run of n itself. -/
def isCanonicalDecimal (n : Int) (s : String) : Prop :=
  if n < 0 then ∃ ds, s.data = '-' :: ds ∧ goodDigits ds ∧ dval ds = n.natAbs
  else goodDigits s.data ∧ dval s.data = n.natAbs

/-! ## Construction and registration (NewMetrics, kprom.go lines 82-201)

The prometheus registry itself is an external collaborator; following the
spec it is modelled as the set of metric names registered so far, with
colliding registration a fatal construction-time error. -/

/-- The name and label schema of one counter family, as passed to
NewCounterVec in NewMetrics (kprom.go lines 141-199). -/
structure FamilySpec where
  name : String
  labels : List String
  deriving DecidableEq

/-- The nine counter families NewMetrics creates, in source order
(kprom.go lines 141-199). -/
def counterFamilies : List FamilySpec :=
  [⟨"connects_total", ["node_id"]⟩,
   ⟨"connect_errors_total", ["node_id"]⟩,
   ⟨"disconnects_total", ["node_id"]⟩,
   ⟨"write_errors_total", ["node_id"]⟩,
   ⟨"write_bytes_total", ["node_id"]⟩,
   ⟨"read_errors_total", ["node_id"]⟩,
   ⟨"read_bytes_total", ["node_id"]⟩,
   ⟨"produce_bytes_total", ["node_id", "topic"]⟩,
   ⟨"fetch_bytes_total", ["node_id", "topic"]⟩]

/-- Modelled from the spec: the underlying metrics registry, reduced to
the list of metric names registered into it. -/
abbrev Registry : Type := List String

/-- The fresh private registry construction starts from when none is
supplied: nothing registered. -/
def emptyRegistry : Registry := []

/-- Modelled from the spec: registering a name into the registry;
registration into an already-populated registry with a colliding name is
a fatal configuration error at construction time, surfaced immediately. -/
def registerName (r : Registry) (n : String) : Except String Registry :=
  if n ∈ r then Except.error n else Except.ok (r ++ [n])

/-- Register a list of names in order, halting at the first collision. -/
def registerAll (r : Registry) (ns : List String) : Except String Registry :=
  ns.foldlM registerName r

/-- Modelled from the spec: the metric name of a family is the namespace
joined to the family name. -/
def fqName (ns name : String) : String :=
  ns ++ "_" ++ name

/-- Stand-in for promhttp.HandlerOpts: scrape-handler options the
aggregator stores but never inspects. -/
structure HandlerOpts where
  deriving DecidableEq

/-- The cfg struct (kprom.go lines 82-87): registry, handler options and
the go-collectors flag. -/
structure Cfg where
  reg : Registry
  handlerOpts : HandlerOpts
  goCollectors : Bool

/-- The cfg NewMetrics starts from (kprom.go lines 122-124): a fresh
registry, zero-valued handler options, collectors disabled. -/
def newCfg : Cfg :=
  { reg := emptyRegistry, handlerOpts := ⟨⟩, goCollectors := false }

/-- The three recognized options (kprom.go lines 99-117). -/
inductive Opt where
  | registry (reg : Registry)
  | goCollectors
  | handlerOpts (h : HandlerOpts)

/-- Applying one option to the cfg (kprom.go lines 95-117). -/
def applyOpt (c : Cfg) : Opt → Cfg
  | .registry r => { c with reg := r }
  | .goCollectors => { c with goCollectors := true }
  | .handlerOpts h => { c with handlerOpts := h }

/-- Modelled from the spec: the names contributed by the two auxiliary
collectors (process resource usage, runtime/GC statistics) registered
when the go-collectors option is enabled. -/
def goCollectorNames : List String :=
  ["process_collector", "go_collector"]

/-- NewMetrics (kprom.go lines 121-201): apply the options over the
default cfg, optionally register the two auxiliary collectors, then
create and register the nine counter families under the namespace;
any name collision is a fatal construction-time error.  On success the
result is the populated registry together with the all-zero counter
state. -/
def newMetrics (ns : String) (opts : List Opt) : Except String (Registry × MetricsState) := do
  let c := opts.foldl applyOpt newCfg
  let r1 ← if c.goCollectors then registerAll c.reg goCollectorNames else pure c.reg
  let r2 ← registerAll r1 (counterFamilies.map (fun f => fqName ns f.name))
  pure (r2, initialState)

/-! ## Concrete values used by witnesses -/

/-- A sample metadata value for node 7. -/
def metaA : BrokerMetadata := ⟨7, "broker-a", 9092, none⟩

/-- A second metadata value sharing node 7 but differing elsewhere. -/
def metaB : BrokerMetadata := ⟨7, "broker-b", 9093, some "rack1"⟩

/-- Metadata for the seed node with the minimum 32-bit signed id. -/
def metaSeed : BrokerMetadata := ⟨-(2 ^ 31), "seed-0", 9092, none⟩

/-- Two sample successful write events on node 7. -/
def sampleWrites : List WriteEvent :=
  [⟨metaA, 0, 500, 1, 2⟩, ⟨metaB, 3, 250, 4, 5⟩]

/-- A sample write event wrapped as an Event. -/
def sampleEvent : Event Unit Unit :=
  Event.write metaA 0 500 1 2 none

/-- A sample produce-batch metrics record. -/
def samplePbm : ProduceBatchMetrics := ⟨10, 1000, 400, 2⟩

/-- A second produce-batch metrics record agreeing with samplePbm only on
the uncompressed byte count. -/
def samplePbm' : ProduceBatchMetrics := ⟨99, 1000, 777, 1⟩

/-! ## Lemmas about the label codec -/

theorem itoaCore_zero (fuel : Nat) : itoaCore fuel 0 = [] := by
  cases fuel <;> simp [itoaCore]

theorem dval_append_digit (ds : List Char) (c : Char) :
    dval (ds ++ [c]) = 10 * dval ds + (c.toNat - 48) := by
  simp [dval, List.foldl_append]

theorem digitChar_toNat (d : Nat) (h : d < 10) : (digitChar d).toNat = 48 + d := by
  interval_cases d <;> decide

theorem digitChar_range (d : Nat) (h : d < 10) : '0' ≤ digitChar d ∧ digitChar d ≤ '9' := by
  interval_cases d <;> decide

theorem digitChar_ne_zeroChar (d : Nat) (h1 : d ≠ 0) (h2 : d < 10) : digitChar d ≠ '0' := by
  interval_cases d <;> simp_all <;> decide

theorem itoaCore_dval : ∀ fuel n, n ≤ fuel → dval (itoaCore fuel n) = n := by
  intro fuel
  induction fuel with
  | zero =>
    intro n h
    have : n = 0 := by omega
    simp [this, itoaCore, dval]
  | succ f ih =>
    intro n h
    by_cases hn : n = 0
    · simp [hn, itoaCore, dval]
    · have hdivlt : n / 10 < n := Nat.div_lt_self (by omega) (by norm_num)
      have hmod : n % 10 < 10 := Nat.mod_lt _ (by norm_num)
      simp only [itoaCore, if_neg hn]
      rw [dval_append_digit, ih (n / 10) (by omega), digitChar_toNat _ hmod]
      omega

theorem itoaCore_ne_nil (fuel n : Nat) (h : n ≠ 0) (hle : n ≤ fuel) :
    itoaCore fuel n ≠ [] := by
  cases fuel with
  | zero => omega
  | succ f => simp [itoaCore, h]

theorem head?_append_left {α : Type} (l l' : List α) (h : l ≠ []) :
    (l ++ l').head? = l.head? := by
  cases l <;> simp_all

theorem itoaCore_head : ∀ fuel n, n ≠ 0 → n ≤ fuel → (itoaCore fuel n).head? ≠ some '0' := by
  intro fuel
  induction fuel with
  | zero => intro n h hle; omega
  | succ f ih =>
    intro n h hle
    simp only [itoaCore, if_neg h]
    by_cases h10 : n / 10 = 0
    · rw [h10, itoaCore_zero]
      have hn10 : n < 10 := by omega
      simp only [List.nil_append, List.head?_cons]
      intro hc
      exact digitChar_ne_zeroChar (n % 10) (by omega) (by omega) (Option.some.inj hc)
    · have hdivlt : n / 10 < n := Nat.div_lt_self (by omega) (by norm_num)
      rw [head?_append_left _ _ (itoaCore_ne_nil f (n / 10) h10 (by omega))]
      exact ih (n / 10) h10 (by omega)

theorem itoaCore_digits : ∀ fuel n c, c ∈ itoaCore fuel n → '0' ≤ c ∧ c ≤ '9' := by
  intro fuel
  induction fuel with
  | zero => intro n c hc; simp [itoaCore] at hc
  | succ f ih =>
    intro n c hc
    by_cases hn : n = 0
    · simp [hn, itoaCore] at hc
    · simp only [itoaCore, if_neg hn, List.mem_append, List.mem_singleton] at hc
      rcases hc with hc | hc
      · exact ih (n / 10) c hc
      · rw [hc]
        exact digitChar_range _ (Nat.mod_lt _ (by norm_num))

theorem goodDigits_itoaCore (n : Nat) (h : n ≠ 0) : goodDigits (itoaCore n n) :=
  ⟨itoaCore_ne_nil n n h le_rfl,
   fun c hc => itoaCore_digits n n c hc,
   fun h0 => absurd h0 (itoaCore_head n n h le_rfl)⟩

theorem itoaNat_spec (n : Nat) : goodDigits (itoaNat n).data ∧ dval (itoaNat n).data = n := by
  by_cases h : n = 0
  · subst h
    constructor
    · simp only [itoaNat, if_pos rfl]
      exact ⟨by decide, by decide, by decide⟩
    · decide
  · simp only [itoaNat, if_neg h]
    exact ⟨goodDigits_itoaCore n h, itoaCore_dval n n le_rfl⟩

theorem data_append (a b : String) : (a ++ b).data = a.data ++ b.data := by
  rw [String.congr_append]

theorem itoa_canonical (n : Int) : isCanonicalDecimal n (itoa n) := by
  by_cases h : n < 0
  · simp only [isCanonicalDecimal, if_pos h, itoa]
    refine ⟨(itoaNat n.natAbs).data, ?_, (itoaNat_spec n.natAbs).1, (itoaNat_spec n.natAbs).2⟩
    rw [data_append]
    rfl
  · simp only [isCanonicalDecimal, if_neg h, itoa]
    have htn : n.toNat = n.natAbs := by omega
    rw [htn]
    exact itoaNat_spec n.natAbs

/-! ## Lemmas about counter updates -/

theorem add_self {α : Type} [DecidableEq α] (f : α → Int) (k : α) (v : Int) :
    add f k v k = f k + v := by
  simp [add]

theorem add_other {α : Type} [DecidableEq α] (f : α → Int) (k x : α) (v : Int)
    (h : x ≠ k) : add f k v x = f x := by
  simp [add, h]

theorem add_mono {α : Type} [DecidableEq α] (f : α → Int) (k : α) (v : Int)
    (h : 0 ≤ v) (x : α) : f x ≤ add f k v x := by
  simp only [add]
  split <;> omega

/-! ## Claim theorems -/

/-- C1: for every OnBrokerWrite (and symmetrically OnBrokerRead)
invocation on a node, a non-nil error bumps write_errors_total at that
node by exactly 1 (other labels untouched) and leaves write_bytes_total
entirely unchanged regardless of the byte-count argument, while a nil
error adds exactly the byte count to write_bytes_total at that node
(other labels untouched) and leaves write_errors_total entirely
unchanged: exactly one of the two families changes per call. -/
theorem write_read_error_byte_exclusive :
    ∀ (E : Type) (m : MetricsState) (meta : BrokerMetadata) (key b w t : Int),
      (∀ e : E,
        (OnBrokerWrite m meta key b w t (some e)).writeErrs (nodeLabel meta) =
            m.writeErrs (nodeLabel meta) + 1 ∧
        (∀ x, x ≠ nodeLabel meta →
          (OnBrokerWrite m meta key b w t (some e)).writeErrs x = m.writeErrs x) ∧
        (OnBrokerWrite m meta key b w t (some e)).writeBytes = m.writeBytes) ∧
      ((OnBrokerWrite m meta key b w t (none : Option E)).writeBytes (nodeLabel meta) =
          m.writeBytes (nodeLabel meta) + b ∧
        (∀ x, x ≠ nodeLabel meta →
          (OnBrokerWrite m meta key b w t (none : Option E)).writeBytes x = m.writeBytes x) ∧
        (OnBrokerWrite m meta key b w t (none : Option E)).writeErrs = m.writeErrs) ∧
      (∀ e : E,
        (OnBrokerRead m meta key b w t (some e)).readErrs (nodeLabel meta) =
            m.readErrs (nodeLabel meta) + 1 ∧
        (∀ x, x ≠ nodeLabel meta →
          (OnBrokerRead m meta key b w t (some e)).readErrs x = m.readErrs x) ∧
        (OnBrokerRead m meta key b w t (some e)).readBytes = m.readBytes) ∧
      ((OnBrokerRead m meta key b w t (none : Option E)).readBytes (nodeLabel meta) =
          m.readBytes (nodeLabel meta) + b ∧
        (∀ x, x ≠ nodeLabel meta →
          (OnBrokerRead m meta key b w t (none : Option E)).readBytes x = m.readBytes x) ∧
        (OnBrokerRead m meta key b w t (none : Option E)).readErrs = m.readErrs) := by
  intro E m meta key b w t
  exact ⟨fun e => ⟨by simp [OnBrokerWrite, add_self],
      fun x hx => by simp [OnBrokerWrite, add_other _ _ _ _ hx], rfl⟩,
    ⟨by simp [OnBrokerWrite, add_self],
      fun x hx => by simp [OnBrokerWrite, add_other _ _ _ _ hx], rfl⟩,
    fun e => ⟨by simp [OnBrokerRead, add_self],
      fun x hx => by simp [OnBrokerRead, add_other _ _ _ _ hx], rfl⟩,
    ⟨by simp [OnBrokerRead, add_self],
      fun x hx => by simp [OnBrokerRead, add_other _ _ _ _ hx], rfl⟩⟩

/-- C1 witness: concrete consequences at node 7 for an errored write of
500 bytes (error family bumped at the node label, untouched at label x,
byte family untouched). -/
theorem write_read_error_byte_exclusive_witness :
    (OnBrokerWrite initialState metaA 1 500 2 3 (some ())).writeErrs (nodeLabel metaA) =
        initialState.writeErrs (nodeLabel metaA) + 1 ∧
    "x" ≠ nodeLabel metaA ∧
    (OnBrokerWrite initialState metaA 1 500 2 3 (some ())).writeErrs "x" =
        initialState.writeErrs "x" ∧
    (OnBrokerWrite initialState metaA 1 500 2 3 (some ())).writeBytes =
        initialState.writeBytes :=
  ⟨((write_read_error_byte_exclusive Unit initialState metaA 1 500 2 3).1 ()).1,
   by decide,
   ((write_read_error_byte_exclusive Unit initialState metaA 1 500 2 3).1 ()).2.1 "x" (by decide),
   ((write_read_error_byte_exclusive Unit initialState metaA 1 500 2 3).1 ()).2.2⟩

/-- C3: every OnBrokerConnect invocation bifurcates strictly: a nil error
bumps connects_total at the node label by exactly 1 (other labels
untouched) and leaves connect_errors_total entirely unchanged; a non-nil
error bumps connect_errors_total at the node label by exactly 1 (other
labels untouched) and leaves connects_total entirely unchanged. -/
theorem connect_bifurcation :
    ∀ (C E : Type) (m : MetricsState) (meta : BrokerMetadata) (d : Int) (c : C),
      ((OnBrokerConnect m meta d c (none : Option E)).connects (nodeLabel meta) =
          m.connects (nodeLabel meta) + 1 ∧
        (∀ x, x ≠ nodeLabel meta →
          (OnBrokerConnect m meta d c (none : Option E)).connects x = m.connects x) ∧
        (OnBrokerConnect m meta d c (none : Option E)).connectErrs = m.connectErrs) ∧
      (∀ e : E,
        (OnBrokerConnect m meta d c (some e)).connectErrs (nodeLabel meta) =
            m.connectErrs (nodeLabel meta) + 1 ∧
        (∀ x, x ≠ nodeLabel meta →
          (OnBrokerConnect m meta d c (some e)).connectErrs x = m.connectErrs x) ∧
        (OnBrokerConnect m meta d c (some e)).connects = m.connects) := by
  intro C E m meta d c
  exact ⟨⟨by simp [OnBrokerConnect, add_self],
      fun x hx => by simp [OnBrokerConnect, add_other _ _ _ _ hx], rfl⟩,
    fun e => ⟨by simp [OnBrokerConnect, add_self],
      fun x hx => by simp [OnBrokerConnect, add_other _ _ _ _ hx], rfl⟩⟩

/-- C3 witness: concrete consequences at node 7 for a successful connect
(success family bumped at the node label, untouched at label x, error
family untouched). -/
theorem connect_bifurcation_witness :
    (OnBrokerConnect initialState metaA 5 () (none : Option Unit)).connects (nodeLabel metaA) =
        initialState.connects (nodeLabel metaA) + 1 ∧
    "x" ≠ nodeLabel metaA ∧
    (OnBrokerConnect initialState metaA 5 () (none : Option Unit)).connects "x" =
        initialState.connects "x" ∧
    (OnBrokerConnect initialState metaA 5 () (none : Option Unit)).connectErrs =
        initialState.connectErrs :=
  ⟨(connect_bifurcation Unit Unit initialState metaA 5 ()).1.1,
   by decide,
   (connect_bifurcation Unit Unit initialState metaA 5 ()).1.2.1 "x" (by decide),
   (connect_bifurcation Unit Unit initialState metaA 5 ()).1.2.2⟩

/-- C2: replaying any finite sequence of successful (nil-error) writes on
node X with non-negative byte counts adds exactly the sum of the byte
counts to write_bytes_total at the label of X and leaves write_errors_total
entirely unchanged. -/
theorem write_replay_sum :
    ∀ (evs : List WriteEvent) (m : MetricsState) (X : Int),
      (∀ e ∈ evs, e.meta.nodeID = X ∧ 0 ≤ e.bytes) →
      (writeReplay m evs).writeBytes (itoa X) =
          m.writeBytes (itoa X) + (evs.map WriteEvent.bytes).sum ∧
      (writeReplay m evs).writeErrs = m.writeErrs := by
  intro evs
  induction evs with
  | nil => intro m X _; simp [writeReplay]
  | cons e evs ih =>
    intro m X h
    have he := h e (List.mem_cons_self e evs)
    have hrest : ∀ e' ∈ evs, e'.meta.nodeID = X ∧ 0 ≤ e'.bytes :=
      fun e' he' => h e' (List.mem_cons_of_mem e he')
    have hstep : writeReplay m (e :: evs) =
        writeReplay (OnBrokerWrite m e.meta e.key e.bytes e.writeWait e.timeToWrite
          (none : Option Unit)) evs := rfl
    have hlabel : nodeLabel e.meta = itoa X := by
      rw [nodeLabel, he.1]
    rw [hstep]
    rcases ih (OnBrokerWrite m e.meta e.key e.bytes e.writeWait e.timeToWrite
      (none : Option Unit)) X hrest with ⟨h1, h2⟩
    constructor
    · rw [h1]
      simp only [OnBrokerWrite, hlabel, add_self, List.map_cons, List.sum_cons]
      omega
    · exact h2

/-- C2 witness: replaying two successful writes of 500 and 250 bytes on
node 7 adds their sum to write_bytes_total at label 7 and leaves
write_errors_total unchanged. -/
theorem write_replay_sum_witness :
    (∀ e ∈ sampleWrites, e.meta.nodeID = 7 ∧ 0 ≤ e.bytes) ∧
    ((writeReplay initialState sampleWrites).writeBytes (itoa 7) =
        initialState.writeBytes (itoa 7) + (sampleWrites.map WriteEvent.bytes).sum ∧
      (writeReplay initialState sampleWrites).writeErrs = initialState.writeErrs) :=
  ⟨by decide, write_replay_sum sampleWrites initialState 7 (by decide)⟩

/-- C4: OnProduceBatchWritten (respectively OnFetchBatchRead) adds
exactly the uncompressed byte count of the batch to produce_bytes_total
(respectively fetch_bytes_total) at the (node label, topic) tuple, leaves
every other tuple of that family untouched, and leaves all eight other
families entirely unchanged. -/
theorem produce_fetch_frame :
    ∀ (m : MetricsState) (meta : BrokerMetadata) (topic : String) (p : Int)
      (pbm : ProduceBatchMetrics) (fbm : FetchBatchMetrics),
      ((OnProduceBatchWritten m meta topic p pbm).produceBytes (nodeLabel meta, topic) =
          m.produceBytes (nodeLabel meta, topic) + pbm.uncompressedBytes ∧
        (∀ q, q ≠ (nodeLabel meta, topic) →
          (OnProduceBatchWritten m meta topic p pbm).produceBytes q = m.produceBytes q) ∧
        (OnProduceBatchWritten m meta topic p pbm).connects = m.connects ∧
        (OnProduceBatchWritten m meta topic p pbm).connectErrs = m.connectErrs ∧
        (OnProduceBatchWritten m meta topic p pbm).disconnects = m.disconnects ∧
        (OnProduceBatchWritten m meta topic p pbm).writeErrs = m.writeErrs ∧
        (OnProduceBatchWritten m meta topic p pbm).writeBytes = m.writeBytes ∧
        (OnProduceBatchWritten m meta topic p pbm).readErrs = m.readErrs ∧
        (OnProduceBatchWritten m meta topic p pbm).readBytes = m.readBytes ∧
        (OnProduceBatchWritten m meta topic p pbm).fetchBytes = m.fetchBytes) ∧
      ((OnFetchBatchRead m meta topic p fbm).fetchBytes (nodeLabel meta, topic) =
          m.fetchBytes (nodeLabel meta, topic) + fbm.uncompressedBytes ∧
        (∀ q, q ≠ (nodeLabel meta, topic) →
          (OnFetchBatchRead m meta topic p fbm).fetchBytes q = m.fetchBytes q) ∧
        (OnFetchBatchRead m meta topic p fbm).connects = m.connects ∧
        (OnFetchBatchRead m meta topic p fbm).connectErrs = m.connectErrs ∧
        (OnFetchBatchRead m meta topic p fbm).disconnects = m.disconnects ∧
        (OnFetchBatchRead m meta topic p fbm).writeErrs = m.writeErrs ∧
        (OnFetchBatchRead m meta topic p fbm).writeBytes = m.writeBytes ∧
        (OnFetchBatchRead m meta topic p fbm).readErrs = m.readErrs ∧
        (OnFetchBatchRead m meta topic p fbm).readBytes = m.readBytes ∧
        (OnFetchBatchRead m meta topic p fbm).produceBytes = m.produceBytes) := by
  intro m meta topic p pbm fbm
  exact ⟨⟨by simp [OnProduceBatchWritten, add_self],
      fun q hq => by simp [OnProduceBatchWritten, add_other _ _ _ _ hq],
      rfl, rfl, rfl, rfl, rfl, rfl, rfl, rfl⟩,
    ⟨by simp [OnFetchBatchRead, add_self],
      fun q hq => by simp [OnFetchBatchRead, add_other _ _ _ _ hq],
      rfl, rfl, rfl, rfl, rfl, rfl, rfl, rfl⟩⟩

/-- C4 witness: concrete consequences for a produce batch of 1000
uncompressed bytes on node 7 and topic orders (target tuple bumped, a
different tuple untouched, another family untouched). -/
theorem produce_fetch_frame_witness :
    (OnProduceBatchWritten initialState metaA "orders" 0 samplePbm).produceBytes
        (nodeLabel metaA, "orders") =
      initialState.produceBytes (nodeLabel metaA, "orders") + samplePbm.uncompressedBytes ∧
    ((nodeLabel metaA, "other") ≠ (nodeLabel metaA, "orders") ∧
      (OnProduceBatchWritten initialState metaA "orders" 0 samplePbm).produceBytes
          (nodeLabel metaA, "other") =
        initialState.produceBytes (nodeLabel metaA, "other")) ∧
    (OnProduceBatchWritten initialState metaA "orders" 0 samplePbm).fetchBytes =
      initialState.fetchBytes :=
  ⟨(produce_fetch_frame initialState metaA "orders" 0 samplePbm ⟨1, 1, 1, 1⟩).1.1,
   ⟨by decide,
    (produce_fetch_frame initialState metaA "orders" 0 samplePbm ⟨1, 1, 1, 1⟩).1.2.1
      (nodeLabel metaA, "other") (by decide)⟩,
   (produce_fetch_frame initialState metaA "orders" 0 samplePbm ⟨1, 1, 1, 1⟩).1.2.2.2.2.2.2.2.2.2⟩

/-- C5 counterexample: NewMetrics creates nine counter families, not
eight as claimed. -/
theorem eight_families_refuted : counterFamilies.length = 9 ∧ ¬ counterFamilies.length = 8 := by
  decide

/-- C5 (amended): the aggregator owns exactly nine distinctly named
counter families and exposes one handler method per recognized event
type, each handler incrementing or adding to its matching family. -/
theorem nine_families_matching_handlers :
    counterFamilies.length = 9 ∧
    (counterFamilies.map FamilySpec.name).Nodup ∧
    (∀ (C E : Type) (m : MetricsState) (meta : BrokerMetadata) (d : Int) (c : C),
      (OnBrokerConnect m meta d c (none : Option E)).connects (nodeLabel meta) =
        m.connects (nodeLabel meta) + 1) ∧
    (∀ (C E : Type) (m : MetricsState) (meta : BrokerMetadata) (d : Int) (c : C) (e : E),
      (OnBrokerConnect m meta d c (some e)).connectErrs (nodeLabel meta) =
        m.connectErrs (nodeLabel meta) + 1) ∧
    (∀ (C : Type) (m : MetricsState) (meta : BrokerMetadata) (c : C),
      (OnBrokerDisconnect m meta c).disconnects (nodeLabel meta) =
        m.disconnects (nodeLabel meta) + 1) ∧
    (∀ (E : Type) (m : MetricsState) (meta : BrokerMetadata) (k b w t : Int) (e : E),
      (OnBrokerWrite m meta k b w t (some e)).writeErrs (nodeLabel meta) =
        m.writeErrs (nodeLabel meta) + 1) ∧
    (∀ (E : Type) (m : MetricsState) (meta : BrokerMetadata) (k b w t : Int),
      (OnBrokerWrite m meta k b w t (none : Option E)).writeBytes (nodeLabel meta) =
        m.writeBytes (nodeLabel meta) + b) ∧
    (∀ (E : Type) (m : MetricsState) (meta : BrokerMetadata) (k b w t : Int) (e : E),
      (OnBrokerRead m meta k b w t (some e)).readErrs (nodeLabel meta) =
        m.readErrs (nodeLabel meta) + 1) ∧
    (∀ (E : Type) (m : MetricsState) (meta : BrokerMetadata) (k b w t : Int),
      (OnBrokerRead m meta k b w t (none : Option E)).readBytes (nodeLabel meta) =
        m.readBytes (nodeLabel meta) + b) ∧
    (∀ (m : MetricsState) (meta : BrokerMetadata) (topic : String) (p : Int)
        (pbm : ProduceBatchMetrics),
      (OnProduceBatchWritten m meta topic p pbm).produceBytes (nodeLabel meta, topic) =
        m.produceBytes (nodeLabel meta, topic) + pbm.uncompressedBytes) ∧
    (∀ (m : MetricsState) (meta : BrokerMetadata) (topic : String) (p : Int)
        (fbm : FetchBatchMetrics),
      (OnFetchBatchRead m meta topic p fbm).fetchBytes (nodeLabel meta, topic) =
        m.fetchBytes (nodeLabel meta, topic) + fbm.uncompressedBytes) := by
  refine ⟨by decide, by decide, ?_, ?_, ?_, ?_, ?_, ?_, ?_, ?_, ?_⟩ <;>
    intros <;>
    simp [OnBrokerConnect, OnBrokerDisconnect, OnBrokerWrite, OnBrokerRead,
      OnProduceBatchWritten, OnFetchBatchRead, add_self]

/-- C6: every handler invocation with non-negative byte-count arguments
leaves every accumulator of every family at least as large as before:
counters are monotonically non-decreasing and never reset. -/
theorem counters_monotone :
    ∀ (C E : Type) (m : MetricsState) (e : Event C E),
      eventNonneg e → stateLE m (step m e) := by
  intro C E m e he
  cases e with
  | connect meta d c err =>
    cases err with
    | none =>
      exact ⟨fun k => add_mono _ _ _ (by omega) k, fun k => le_rfl, fun k => le_rfl,
        fun k => le_rfl, fun k => le_rfl, fun k => le_rfl, fun k => le_rfl,
        fun k => le_rfl, fun k => le_rfl⟩
    | some e' =>
      exact ⟨fun k => le_rfl, fun k => add_mono _ _ _ (by omega) k, fun k => le_rfl,
        fun k => le_rfl, fun k => le_rfl, fun k => le_rfl, fun k => le_rfl,
        fun k => le_rfl, fun k => le_rfl⟩
  | disconnect meta c =>
    exact ⟨fun k => le_rfl, fun k => le_rfl, fun k => add_mono _ _ _ (by omega) k,
      fun k => le_rfl, fun k => le_rfl, fun k => le_rfl, fun k => le_rfl,
      fun k => le_rfl, fun k => le_rfl⟩
  | write meta k b w t err =>
    cases err with
    | none =>
      exact ⟨fun k => le_rfl, fun k => le_rfl, fun k => le_rfl, fun k => le_rfl,
        fun k => add_mono _ _ _ he k, fun k => le_rfl, fun k => le_rfl,
        fun k => le_rfl, fun k => le_rfl⟩
    | some e' =>
      exact ⟨fun k => le_rfl, fun k => le_rfl, fun k => le_rfl,
        fun k => add_mono _ _ _ (by omega) k, fun k => le_rfl, fun k => le_rfl,
        fun k => le_rfl, fun k => le_rfl, fun k => le_rfl⟩
  | read meta k b w t err =>
    cases err with
    | none =>
      exact ⟨fun k => le_rfl, fun k => le_rfl, fun k => le_rfl, fun k => le_rfl,
        fun k => le_rfl, fun k => le_rfl, fun k => add_mono _ _ _ he k,
        fun k => le_rfl, fun k => le_rfl⟩
    | some e' =>
      exact ⟨fun k => le_rfl, fun k => le_rfl, fun k => le_rfl, fun k => le_rfl,
        fun k => le_rfl, fun k => add_mono _ _ _ (by omega) k, fun k => le_rfl,
        fun k => le_rfl, fun k => le_rfl⟩
  | produceBatchWritten meta topic p pbm =>
    exact ⟨fun k => le_rfl, fun k => le_rfl, fun k => le_rfl, fun k => le_rfl,
      fun k => le_rfl, fun k => le_rfl, fun k => le_rfl,
      fun k => add_mono _ _ _ he k, fun k => le_rfl⟩
  | fetchBatchRead meta topic p fbm =>
    exact ⟨fun k => le_rfl, fun k => le_rfl, fun k => le_rfl, fun k => le_rfl,
      fun k => le_rfl, fun k => le_rfl, fun k => le_rfl, fun k => le_rfl,
      fun k => add_mono _ _ _ he k⟩

/-- C6 witness: a concrete successful write of 500 bytes on node 7 has a
non-negative byte count and yields a pointwise-larger-or-equal state. -/
theorem counters_monotone_witness :
    eventNonneg sampleEvent ∧ stateLE initialState (step initialState sampleEvent) :=
  ⟨by norm_num [sampleEvent, eventNonneg],
   counters_monotone Unit Unit initialState sampleEvent
     (by norm_num [sampleEvent, eventNonneg])⟩

/-- C8: every handler invocation — for any metadata, any byte count
including negative ones, any duration, any error, any topic and any
partition — is a total function whose only effect is a single counter
update: the resulting state is the input state with exactly one family
bumped at one label tuple. -/
theorem handlers_total_single_update :
    ∀ (C E : Type) (m : MetricsState) (e : Event C E),
      singleCounterUpdate m (step m e) := by
  intro C E m e
  cases e with
  | connect meta d c err =>
    cases err with
    | none => exact Or.inl ⟨nodeLabel meta, 1, rfl⟩
    | some e' => exact Or.inr (Or.inl ⟨nodeLabel meta, 1, rfl⟩)
  | disconnect meta c =>
    exact Or.inr (Or.inr (Or.inl ⟨nodeLabel meta, 1, rfl⟩))
  | write meta k b w t err =>
    cases err with
    | none => exact Or.inr (Or.inr (Or.inr (Or.inr (Or.inl ⟨nodeLabel meta, b, rfl⟩))))
    | some e' => exact Or.inr (Or.inr (Or.inr (Or.inl ⟨nodeLabel meta, 1, rfl⟩)))
  | read meta k b w t err =>
    cases err with
    | none =>
      exact Or.inr (Or.inr (Or.inr (Or.inr (Or.inr (Or.inr
        (Or.inl ⟨nodeLabel meta, b, rfl⟩))))))
    | some e' =>
      exact Or.inr (Or.inr (Or.inr (Or.inr (Or.inr (Or.inl ⟨nodeLabel meta, 1, rfl⟩)))))
  | produceBatchWritten meta topic p pbm =>
    exact Or.inr (Or.inr (Or.inr (Or.inr (Or.inr (Or.inr (Or.inr
      (Or.inl ⟨(nodeLabel meta, topic), pbm.uncompressedBytes, rfl⟩)))))))
  | fetchBatchRead meta topic p fbm =>
    exact Or.inr (Or.inr (Or.inr (Or.inr (Or.inr (Or.inr (Or.inr (Or.inr
      ⟨(nodeLabel meta, topic), fbm.uncompressedBytes, rfl⟩)))))))

/-- C7: for every node identifier in the signed 32-bit range, the
node_id label the handlers derive is the canonical base-10
decimal string with sign preserved, and the minimum 32-bit signed
integer renders exactly as its decimal string, with no special-casing of
seed IDs. -/
theorem node_label_canonical :
    ∀ (meta : BrokerMetadata), -(2 ^ 31) ≤ meta.nodeID → meta.nodeID < 2 ^ 31 →
      isCanonicalDecimal meta.nodeID (nodeLabel meta) ∧
      (meta.nodeID = -(2 ^ 31) → nodeLabel meta = "-2147483648") := by
  intro meta h1 h2
  refine ⟨itoa_canonical meta.nodeID, fun hmin => ?_⟩
  have hlab : nodeLabel meta = itoa meta.nodeID := rfl
  rw [hlab, hmin]
  decide

/-- C7 witness: the seed node with the minimum 32-bit signed id is in
range, its label is the canonical decimal rendering, and that label is
exactly the string -2147483648. -/
theorem node_label_canonical_witness :
    (-(2 ^ 31) ≤ metaSeed.nodeID ∧ metaSeed.nodeID < 2 ^ 31 ∧ metaSeed.nodeID = -(2 ^ 31)) ∧
    isCanonicalDecimal metaSeed.nodeID (nodeLabel metaSeed) ∧
    nodeLabel metaSeed = "-2147483648" :=
  ⟨⟨by decide, by decide, by decide⟩,
   (node_label_canonical metaSeed (by decide) (by decide)).1,
   (node_label_canonical metaSeed (by decide) (by decide)).2 (by decide)⟩

/-- C10: two invocations of the same handler from the same state that
agree on the node identifier, the topic (where present), the byte or
uncompressed-byte count, and the nil-ness of the error produce identical
states: durations, the transport handle, the request-type code, the
partition, the remaining metadata and batch-metrics fields, and the
concrete value (and even the type) of a non-nil error have no influence. -/
theorem update_depends_only_on_observables :
    (∀ (C C' E E' : Type) (m : MetricsState) (meta meta' : BrokerMetadata)
        (d d' : Int) (c : C) (c' : C') (e : Option E) (e' : Option E'),
      meta.nodeID = meta'.nodeID → e.isSome = e'.isSome →
      OnBrokerConnect m meta d c e = OnBrokerConnect m meta' d' c' e') ∧
    (∀ (C C' : Type) (m : MetricsState) (meta meta' : BrokerMetadata) (c : C) (c' : C'),
      meta.nodeID = meta'.nodeID →
      OnBrokerDisconnect m meta c = OnBrokerDisconnect m meta' c') ∧
    (∀ (E E' : Type) (m : MetricsState) (meta meta' : BrokerMetadata)
        (k k' b w w' t t' : Int) (e : Option E) (e' : Option E'),
      meta.nodeID = meta'.nodeID → e.isSome = e'.isSome →
      OnBrokerWrite m meta k b w t e = OnBrokerWrite m meta' k' b w' t' e') ∧
    (∀ (E E' : Type) (m : MetricsState) (meta meta' : BrokerMetadata)
        (k k' b w w' t t' : Int) (e : Option E) (e' : Option E'),
      meta.nodeID = meta'.nodeID → e.isSome = e'.isSome →
      OnBrokerRead m meta k b w t e = OnBrokerRead m meta' k' b w' t' e') ∧
    (∀ (m : MetricsState) (meta meta' : BrokerMetadata) (topic : String) (p p' : Int)
        (pbm pbm' : ProduceBatchMetrics),
      meta.nodeID = meta'.nodeID → pbm.uncompressedBytes = pbm'.uncompressedBytes →
      OnProduceBatchWritten m meta topic p pbm = OnProduceBatchWritten m meta' topic p' pbm') ∧
    (∀ (m : MetricsState) (meta meta' : BrokerMetadata) (topic : String) (p p' : Int)
        (fbm fbm' : FetchBatchMetrics),
      meta.nodeID = meta'.nodeID → fbm.uncompressedBytes = fbm'.uncompressedBytes →
      OnFetchBatchRead m meta topic p fbm = OnFetchBatchRead m meta' topic p' fbm') := by
  refine ⟨?_, ?_, ?_, ?_, ?_, ?_⟩
  · intro C C' E E' m meta meta' d d' c c' e e' hid hsome
    have hl : nodeLabel meta = nodeLabel meta' := by rw [nodeLabel, nodeLabel, hid]
    cases e <;> cases e' <;> simp_all [OnBrokerConnect]
  · intro C C' m meta meta' c c' hid
    have hl : nodeLabel meta = nodeLabel meta' := by rw [nodeLabel, nodeLabel, hid]
    simp [OnBrokerDisconnect, hl]
  · intro E E' m meta meta' k k' b w w' t t' e e' hid hsome
    have hl : nodeLabel meta = nodeLabel meta' := by rw [nodeLabel, nodeLabel, hid]
    cases e <;> cases e' <;> simp_all [OnBrokerWrite]
  · intro E E' m meta meta' k k' b w w' t t' e e' hid hsome
    have hl : nodeLabel meta = nodeLabel meta' := by rw [nodeLabel, nodeLabel, hid]
    cases e <;> cases e' <;> simp_all [OnBrokerRead]
  · intro m meta meta' topic p p' pbm pbm' hid hbytes
    have hl : nodeLabel meta = nodeLabel meta' := by rw [nodeLabel, nodeLabel, hid]
    simp [OnProduceBatchWritten, hl, hbytes]
  · intro m meta meta' topic p p' fbm fbm' hid hbytes
    have hl : nodeLabel meta = nodeLabel meta' := by rw [nodeLabel, nodeLabel, hid]
    simp [OnFetchBatchRead, hl, hbytes]

/-- C10 witness: a failed connect on node 7 reported with a string error
and one reported with a numeric error, different durations and transport
handles, update the state identically; likewise a produce batch whose
metrics agree only on the uncompressed byte count. -/
theorem update_depends_only_on_observables_witness :
    (metaA.nodeID = metaB.nodeID ∧
      (some "boom" : Option String).isSome = (some 9 : Option Nat).isSome ∧
      OnBrokerConnect initialState metaA 5 () (some "boom") =
        OnBrokerConnect initialState metaB 99 true (some 9)) ∧
    (samplePbm.uncompressedBytes = samplePbm'.uncompressedBytes ∧
      OnProduceBatchWritten initialState metaA "orders" 0 samplePbm =
        OnProduceBatchWritten initialState metaB "orders" 3 samplePbm') :=
  ⟨⟨by decide, rfl,
    update_depends_only_on_observables.1 Unit Bool String Nat initialState metaA metaB
      5 99 () true (some "boom") (some 9) (by decide) rfl⟩,
   ⟨by decide,
    update_depends_only_on_observables.2.2.2.2.1 initialState metaA metaB "orders" 0 3
      samplePbm samplePbm' (by decide) (by decide)⟩⟩

/-! ## Lemmas about registration -/

theorem registerAll_ok : ∀ (l : List String) (r : Registry),
    (∀ n ∈ l, n ∉ r) → l.Nodup → registerAll r l = Except.ok (r ++ l) := by
  intro l
  induction l with
  | nil => intro r _ _; simp only [List.append_nil]; rfl
  | cons n l ih =>
    intro r hfresh hnodup
    have hn : n ∉ r := hfresh n (List.mem_cons_self n l)
    have hstep : registerAll r (n :: l) = registerAll (r ++ [n]) l := by
      simp only [registerAll, List.foldlM_cons, registerName, if_neg hn]
      rfl
    rw [hstep, ih (r ++ [n]) ?_ (List.Nodup.of_cons hnodup)]
    · simp
    · intro x hx
      simp only [List.mem_append, List.mem_singleton]
      rintro (hxr | hxn)
      · exact hfresh x (List.mem_cons_of_mem n hx) hxr
      · exact (List.nodup_cons.mp hnodup).1 (hxn ▸ hx)

theorem registerAll_error : ∀ (l : List String) (r : Registry),
    (∃ n ∈ l, n ∈ r) → ∃ msg, registerAll r l = Except.error msg := by
  intro l
  induction l with
  | nil => intro r h; simp at h
  | cons n l ih =>
    intro r h
    by_cases hn : n ∈ r
    · refine ⟨n, ?_⟩
      simp only [registerAll, List.foldlM_cons, registerName, if_pos hn]
      rfl
    · rcases h with ⟨x, hx, hxr⟩
      rcases List.mem_cons.mp hx with hxn | hxl
      · exact absurd (hxn ▸ hxr) hn
      · have hstep : registerAll r (n :: l) = registerAll (r ++ [n]) l := by
          simp only [registerAll, List.foldlM_cons, registerName, if_neg hn]
          rfl
        rw [hstep]
        exact ih (r ++ [n]) ⟨x, hxl, List.mem_append_left _ hxr⟩

theorem fqName_inj (ns a b : String) (h : fqName ns a = fqName ns b) : a = b := by
  have hd := congrArg String.data h
  simp only [fqName, data_append] at hd
  have hdata : a.data = b.data := by
    have h1 := List.append_cancel_left hd
    simpa using h1
  exact congrArg String.mk hdata

theorem counterFamilyNames_nodup (ns : String) :
    (counterFamilies.map (fun f => fqName ns f.name)).Nodup := by
  have hbase : (counterFamilies.map FamilySpec.name).Nodup := by decide
  have : counterFamilies.map (fun f => fqName ns f.name) =
      (counterFamilies.map FamilySpec.name).map (fqName ns) := by
    simp [List.map_map, Function.comp]
  rw [this]
  exact hbase.map (fun a b hab => fqName_inj ns a b hab)

/-- C9: construction with no Registry option starts from a fresh empty
registry and succeeds, registering all nine counter families under their
namespace-joined names; construction against a supplied registry that
already holds a colliding name halts immediately with a fatal error. -/
theorem newMetrics_registration :
    (∀ ns, newMetrics ns [] =
      Except.ok (counterFamilies.map (fun f => fqName ns f.name), initialState)) ∧
    (∀ ns r, (∃ f ∈ counterFamilies, fqName ns f.name ∈ r) →
      ∃ msg, newMetrics ns [Opt.registry r] = Except.error msg) := by
  constructor
  · intro ns
    have hreg : registerAll ([] : Registry) (counterFamilies.map (fun f => fqName ns f.name)) =
        Except.ok (counterFamilies.map (fun f => fqName ns f.name)) := by
      have h := registerAll_ok (counterFamilies.map (fun f => fqName ns f.name)) []
        (by simp) (counterFamilyNames_nodup ns)
      simpa using h
    simp [newMetrics, newCfg, emptyRegistry, hreg]
  · intro ns r hcol
    rcases hcol with ⟨f, hf, hfr⟩
    have hcol' : ∃ n ∈ counterFamilies.map (fun f => fqName ns f.name), n ∈ r :=
      ⟨fqName ns f.name, List.mem_map_of_mem _ hf, hfr⟩
    rcases registerAll_error _ r hcol' with ⟨msg, hmsg⟩
    refine ⟨msg, ?_⟩
    simp [newMetrics, newCfg, applyOpt, hmsg]

/-- C9 witness: constructing under namespace kprom with no options
succeeds and registers the nine namespaced family names; constructing
against a registry already holding kprom_connects_total fails. -/
theorem newMetrics_registration_witness :
    newMetrics "kprom" [] =
      Except.ok (counterFamilies.map (fun f => fqName "kprom" f.name), initialState) ∧
    (∃ f ∈ counterFamilies, fqName "kprom" f.name ∈ ["kprom_connects_total"]) ∧
    (∃ msg, newMetrics "kprom" [Opt.registry ["kprom_connects_total"]] =
      Except.error msg) :=
  ⟨newMetrics_registration.1 "kprom",
   by decide,
   newMetrics_registration.2 "kprom" ["kprom_connects_total"] (by decide)⟩

end Kprom
